import Mathlib

/-!
Shallow embedding of `file_comparison.py` (Excel/CSV comparison tool).

The script loads two tabular files with pandas, aligns them on a key column,
and buckets results into summary rows, detailed mismatch rows and missing-key
rows.  We embed the three functions `read_file`, `compare_files` and
`save_report` over an explicit table type.

Modelling conventions:
* A pandas cell value is a `Value`: a number (`num`, exact rational — binary
  floating point representation error is not modelled), a string (`str`), or
  `none` for Python `None` (the sentinel the script uses for a column absent
  from one table).  `NaN` cells are not modelled; input tables are assumed
  dense.
* File I/O is not executed: `read_file` models only the extension dispatch of
  the source, and the comparator is given the two already-loaded tables
  together with the two file stems (`Path(file).stem`) that the source
  interpolates into row labels.
* Python exceptions are modelled with `Except`: `ValueError` from the key
  column check, the `KeyError` that `df[col]` raises inside the
  numeric-column comprehension when `col` is absent from that frame, and the
  `ZeroDivisionError` of the match-percentage computation.
* Python `sorted` is modelled by an insertion sort `sortedBy`; `round(x, 2)`
  by exact half-to-even rounding `pythonRound2`.
-/

namespace FileComparison

/-- A pandas cell value: a number, a string, or Python `None`. -/
inductive Value where
  | num (q : ℚ)
  | str (s : String)
  | none
deriving DecidableEq, Repr

/-- Total order on cell values used to model Python `sorted` on keys
(constructor-ordered; Python itself would raise on heterogeneous key types,
which the claims never exercise). -/
def Value.le : Value → Value → Bool
  | .num a, .num b => a ≤ b
  | .num _, .str _ => true
  | .num _, .none => true
  | .str _, .num _ => false
  | .str a, .str b => a ≤ b
  | .str _, .none => true
  | .none, .num _ => false
  | .none, .str _ => false
  | .none, .none => true

/-- Whether the value is a number (used to model the numeric dtype check). -/
def Value.isNum : Value → Bool
  | .num _ => true
  | _ => false

/-- Value of a decimal digit list, most significant first. -/
def digitsVal (l : List Char) : ℕ :=
  l.foldl (fun n c => n * 10 + (c.toNat - 48)) 0

/-- Python `float()` on a plain decimal string literal: optional sign,
digits, optional decimal point (exponents, inf/nan and surrounding
whitespace are not modelled).  Returns `Option.none` when parsing fails. -/
def strToFloat (s : String) : Option ℚ :=
  let core : List Char → Option ℚ := fun l =>
    let ip := l.takeWhile Char.isDigit
    let rest := l.dropWhile Char.isDigit
    match rest with
    | [] => if ip.isEmpty then Option.none else some (digitsVal ip)
    | '.' :: frac =>
        if frac.all Char.isDigit && !(ip.isEmpty && frac.isEmpty) then
          some ((digitsVal ip : ℚ) + (digitsVal frac : ℚ) / (10 : ℚ) ^ frac.length)
        else Option.none
    | _ => Option.none
  match s.data with
  | '-' :: l => (core l).map (fun q => -q)
  | '+' :: l => core l
  | l => core l

/-- Python `float(v)` on a cell value: numbers convert to themselves,
strings are parsed, `None` raises (`Option.none`). -/
def pyFloat : Value → Option ℚ
  | .num q => some q
  | .str s => strToFloat s
  | .none => Option.none

/-- The `float(val2) - float(val1)` computation of line 86, with the bare
`except` of line 88 modelled by `Option.none`. -/
def pyDiff (v1 v2 : Value) : Option ℚ :=
  match pyFloat v2, pyFloat v1 with
  | some b, some a => some (b - a)
  | _, _ => Option.none

/-- A loaded dataframe: header row and data rows (row-major, each row aligned
with `cols`). -/
structure DF where
  cols : List String
  rows : List (List Value)
deriving DecidableEq, Repr

/-- A dataframe after `set_index(key_column)`: the key column has been moved
out of `cols` into the first component of each entry. -/
structure IndexedDF where
  cols : List String
  entries : List (Value × List Value)
deriving DecidableEq, Repr

/-- `df.set_index(key_column)`: remove the key column and use its values as
the index. -/
def DF.set_index (d : DF) (key_column : String) : IndexedDF :=
  let i := d.cols.indexOf key_column
  { cols := d.cols.eraseIdx i
    entries := d.rows.map (fun r => (r.getD i Value.none, r.eraseIdx i)) }

/-- The index (key list) of an indexed dataframe. -/
def IndexedDF.keys (t : IndexedDF) : List Value :=
  t.entries.map Prod.fst

/-- `key in df.index`. -/
def IndexedDF.hasKey (t : IndexedDF) (k : Value) : Bool :=
  t.keys.contains k

/-- `df.at[key, col]` (first row carrying the key; the source assumes unique
keys, and the spec leaves duplicate keys undefined). -/
def IndexedDF.at (t : IndexedDF) (k : Value) (c : String) : Value :=
  match t.entries.find? (fun e => e.1 == k) with
  | some e => e.2.getD (t.cols.indexOf c) Value.none
  | Option.none => Value.none

/-- `df1.at[key, col] if col in df1.columns else None` (lines 72-73). -/
def valAt (t : IndexedDF) (k : Value) (c : String) : Value :=
  if t.cols.contains c then t.at k c else Value.none

/-- `np.issubdtype(df[col].dtype, np.number)`: under pandas dtype inference a
column is numeric iff it is non-empty and every cell is a number. -/
def IndexedDF.colNumeric (t : IndexedDF) (c : String) : Bool :=
  !t.entries.isEmpty &&
    t.entries.all (fun e => (e.2.getD (t.cols.indexOf c) Value.none).isNum)

/-- Python exceptions raised by the script. -/
inductive CompErr where
  | valueError (msg : String)
  | keyError (col : String)
  | zeroDivisionError
deriving DecidableEq, Repr

/-- Insert into a le-sorted list, keeping it sorted. -/
def insertLe {α : Type} (le : α → α → Bool) (a : α) : List α → List α
  | [] => [a]
  | b :: l => if le a b then a :: b :: l else b :: insertLe le a l

/-- Python `sorted` (insertion sort; for duplicate-free inputs and a total
antisymmetric order this is the unique sorted arrangement, which is all the
source relies on). -/
def sortedBy {α : Type} (le : α → α → Bool) : List α → List α
  | [] => []
  | a :: l => insertLe le a (sortedBy le l)

/-- `sorted(set(df1.index).union(set(df2.index)))` (line 46). -/
def allKeysOf (t1 t2 : IndexedDF) : List Value :=
  sortedBy Value.le ((t1.keys ++ t2.keys).dedup)

/-- `sorted(set(df1.columns).union(set(df2.columns)))` (line 47). -/
def allColumnsOf (t1 t2 : IndexedDF) : List String :=
  sortedBy (fun a b => a ≤ b) ((t1.cols ++ t2.cols).dedup)

/-- The numeric-column comprehension of lines 57-59.  Evaluation order is
significant: `df1[col]` raises `KeyError` when `col` is absent from `df1`;
when `df1`'s dtype check already returns true, Python's `or` short-circuits
and `df2[col]` is never evaluated. -/
def numericColsOf (t1 t2 : IndexedDF) : List String → Except CompErr (List String)
  | [] => .ok []
  | c :: rest =>
    if t1.cols.contains c = false then .error (.keyError c)
    else if t1.colNumeric c then
      match numericColsOf t1 t2 rest with
      | .error e => .error e
      | .ok l => .ok (c :: l)
    else if t2.cols.contains c = false then .error (.keyError c)
    else if t2.colNumeric c then
      match numericColsOf t1 t2 rest with
      | .error e => .error e
      | .ok l => .ok (c :: l)
    else
      numericColsOf t1 t2 rest

/-- A summary row (lines 94-101). -/
structure SummaryRow where
  key : Value
  total_columns : ℕ
  matched_columns : ℤ
  mismatched_columns : ℕ
  match_percentage : ℚ
  status : String
deriving DecidableEq, Repr

/-- A detailed mismatch row (lines 77-82).  In the source the two cell
values are stored under the two file stems as dict keys; we model them as
the fields `val1` (file 1's value) and `val2` (file 2's value), assuming the
two stems are distinct.  `difference`'s outer `Option` records whether the
field was added at all (only for numeric columns); the inner `Option`
records the `None` written on conversion failure. -/
structure MismatchRow where
  key : Value
  column_name : String
  val1 : Value
  val2 : Value
  difference : Option (Option ℚ)
deriving DecidableEq, Repr

/-- A missing-key row (lines 64 and 67). -/
structure MissingRow where
  key : Value
  present_in : String
deriving DecidableEq, Repr

/-- The three result sequences of `compare_files`. -/
structure CompareOutput where
  summary : List SummaryRow
  detailed : List MismatchRow
  missing : List MissingRow
deriving DecidableEq, Repr

/-- Exact half-to-even rounding to an integer (Python `round` semantics in
exact arithmetic). -/
def roundHalfEven (q : ℚ) : ℤ :=
  if q - ⌊q⌋ < 1 / 2 then ⌊q⌋
  else if q - ⌊q⌋ > 1 / 2 then ⌊q⌋ + 1
  else if ⌊q⌋ % 2 = 0 then ⌊q⌋ else ⌊q⌋ + 1

/-- Python `round(x, 2)` in exact rational arithmetic. -/
def pythonRound2 (q : ℚ) : ℚ :=
  (roundHalfEven (q * 100) : ℚ) / 100

/-- The summary row built at lines 91-101 for a key present in both tables:
`total` is `len(all_columns)` and `m` is the mismatch counter. -/
def mkSummary (k : Value) (total m : ℕ) : SummaryRow :=
  { key := k
    total_columns := total
    matched_columns := (total : ℤ) - (m : ℤ)
    mismatched_columns := m
    match_percentage := pythonRound2 ((((total : ℚ) - (m : ℚ)) / (total : ℚ)) * 100)
    status := if m = 0 then "✅ MATCH" else "❌ MISMATCH" }

/-- The mismatch row built at lines 77-88. -/
def mkMismatch (nc : List String) (k : Value) (c : String) (v1 v2 : Value) : MismatchRow :=
  { key := k
    column_name := c
    val1 := v1
    val2 := v2
    difference := if nc.contains c then some (pyDiff v1 v2) else Option.none }

/-- The inner column loop of lines 70-89 for one key present in both tables:
returns the mismatch counter and the detailed rows appended for this key, in
column order. -/
def compareKey (t1 t2 : IndexedDF) (nc : List String) (k : Value) :
    List String → ℕ × List MismatchRow
  | [] => (0, [])
  | c :: rest =>
    let v1 := valAt t1 k c
    let v2 := valAt t2 k c
    let r := compareKey t1 t2 nc k rest
    if v1 = v2 then r
    else (r.1 + 1, mkMismatch nc k c v1 v2 :: r.2)

/-- The outer key loop of lines 61-101.  A key absent from `df1` yields a
`f"{file2_name}_only"` missing row, one absent from `df2` yields
`f"{file1_name}_only"`; a key present in both runs the column loop and then
the match-percentage computation, which raises `ZeroDivisionError` when
`all_columns` is empty. -/
def compareLoop (t1 t2 : IndexedDF) (nc : List String) (n1 n2 : String)
    (allCols : List String) : List Value → Except CompErr CompareOutput
  | [] => .ok ⟨[], [], []⟩
  | k :: rest =>
    if t1.hasKey k = false then
      match compareLoop t1 t2 nc n1 n2 allCols rest with
      | .error e => .error e
      | .ok o => .ok ⟨o.summary, o.detailed, ⟨k, n2 ++ "_only"⟩ :: o.missing⟩
    else if t2.hasKey k = false then
      match compareLoop t1 t2 nc n1 n2 allCols rest with
      | .error e => .error e
      | .ok o => .ok ⟨o.summary, o.detailed, ⟨k, n1 ++ "_only"⟩ :: o.missing⟩
    else if allCols.length = 0 then .error .zeroDivisionError
    else
      match compareLoop t1 t2 nc n1 n2 allCols rest with
      | .error e => .error e
      | .ok o =>
        .ok ⟨mkSummary k allCols.length (compareKey t1 t2 nc k allCols).1 :: o.summary,
             (compareKey t1 t2 nc k allCols).2 ++ o.detailed,
             o.missing⟩

/-- The `ValueError` message of line 41. -/
def keyColumnMsg (key_column : String) : String :=
  "Key column " ++ "'" ++ key_column ++ "'" ++ " must exist in both files"

/-- `compare_files` (lines 31-107) on the two loaded tables.  `n1`, `n2` are
the file stems `Path(file1).stem` and `Path(file2).stem`. -/
def compare_files (df1 df2 : DF) (n1 n2 key_column : String) :
    Except CompErr CompareOutput :=
  if df1.cols.contains key_column = false ∨ df2.cols.contains key_column = false then
    .error (.valueError (keyColumnMsg key_column))
  else
    let t1 := df1.set_index key_column
    let t2 := df2.set_index key_column
    match numericColsOf t1 t2 (allColumnsOf t1 t2) with
    | .error e => .error e
    | .ok nc => compareLoop t1 t2 nc n1 n2 (allColumnsOf t1 t2) (allKeysOf t1 t2)

/-- Which parser `read_file` dispatches to. -/
inductive FileFormat where
  | csv
  | excel
deriving DecidableEq, Repr

/-- Python `str.endswith`, modelled structurally over the character list. -/
def pyEndsWith (s suffix : String) : Bool :=
  List.isSuffixOf suffix.data s.data

/-- `read_file` (lines 19-26): extension dispatch only.  The error is raised
before any data is read; actual parsing is pandas I/O and is not modelled. -/
def read_file (file_path : String) : Except CompErr FileFormat :=
  if pyEndsWith file_path ".csv" then .ok .csv
  else if pyEndsWith file_path ".xlsx" then .ok .excel
  else .error (.valueError "Only CSV and Excel files are supported")

/-- The data transformation of `save_report` (lines 112-120): the SUMMARY
sheet holds `summary_df.sort_values("match_percentage")`, the other two
sheets hold the sequences unchanged.  Spreadsheet formatting is not
modelled. -/
def save_report (summary : List SummaryRow) (detail : List MismatchRow)
    (missing : List MissingRow) :
    List SummaryRow × List MismatchRow × List MissingRow :=
  (sortedBy (fun a b => a.match_percentage ≤ b.match_percentage) summary,
   detail, missing)

/-- The per-column mismatch test of line 75 as a predicate. -/
def mismatchAt (t1 t2 : IndexedDF) (k : Value) (c : String) : Bool :=
  !(valAt t1 k c == valAt t2 k c)

/-- Swapping the two tables in a mismatch row: the stored values trade
places and the numeric difference is negated (where it was computed). -/
def swapMismatch (r : MismatchRow) : MismatchRow :=
  { key := r.key
    column_name := r.column_name
    val1 := r.val2
    val2 := r.val1
    difference := r.difference.map (Option.map Neg.neg) }

/-! ### Concrete tables used as test inputs for the claims -/

/-- A single-row table with only the key column, sharing key `1` with
`dfC1B`. -/
def dfC1A : DF := ⟨["k"], [[.num 1]]⟩

/-- A single-row table with key column `k` and a data column `b`. -/
def dfC1B : DF := ⟨["k", "b"], [[.num 1, .num 6]]⟩

/-- A table whose only column is the key column. -/
def dfKeyOnly : DF := ⟨["k"], [[.num 1]]⟩

/-- Another key-column-only table. -/
def dfKeyOnly2 : DF := ⟨["id"], [[.num 5]]⟩

/-- A table with one numeric data column. -/
def dfC4A : DF := ⟨["k", "c"], [[.num 1, .num 2]]⟩

/-- A table with the key column only, sharing key `1` with `dfC4A`. -/
def dfC4B : DF := ⟨["k"], [[.num 1]]⟩

/-- Keys `{1, 2}` with a data column (spec scenario, table A). -/
def dfC8A : DF := ⟨["k", "v"], [[.num 1, .num 10], [.num 2, .num 20]]⟩

/-- Keys `{2, 3}` with a data column (spec scenario, table B). -/
def dfC8B : DF := ⟨["k", "v"], [[.num 2, .num 20], [.num 3, .num 30]]⟩

/-- A one-key, one-data-column table. -/
def dfW : DF := ⟨["k", "v"], [[.num 1, .num 7]]⟩

/-- Like `dfW` but with a different value in column `v`. -/
def dfW2 : DF := ⟨["k", "v"], [[.num 1, .num 9]]⟩

/-- The i-th data column name of the wide tables: `"c"`, `"cc"`, ... -/
def wideName (i : ℕ) : String := String.mk (List.replicate (i + 1) 'c')

/-- 20001 distinct data column names. -/
def wideDataCols : List String := (List.range 20001).map wideName

/-- Key `0` followed by 20001 zero cells. -/
def wideRow1 : List Value := Value.num 0 :: List.replicate 20001 (Value.num 0)

/-- Key `0`, a `1` in the first data column, then 20000 zero cells. -/
def wideRow2 : List Value := Value.num 0 :: Value.num 1 :: List.replicate 20000 (Value.num 0)

/-- A single-row table with 20001 data columns, all cells `0`. -/
def wideDF1 : DF := ⟨"k" :: wideDataCols, [wideRow1]⟩

/-- Like `wideDF1` but with a `1` in the first data column. -/
def wideDF2 : DF := ⟨"k" :: wideDataCols, [wideRow2]⟩

/-! ### Generic facts about the `sortedBy` model of Python `sorted` -/

theorem mem_insertLe {α : Type} (le : α → α → Bool) (a x : α) (l : List α) :
    x ∈ insertLe le a l ↔ x = a ∨ x ∈ l := by
  induction l with
  | nil => simp [insertLe]
  | cons b t ih =>
      simp only [insertLe]
      split
      · simp [List.mem_cons]
      · simp only [List.mem_cons, ih]
        tauto

theorem insertLe_perm {α : Type} (le : α → α → Bool) (a : α) (l : List α) :
    List.Perm (insertLe le a l) (a :: l) := by
  induction l with
  | nil => simp [insertLe]
  | cons b t ih =>
      simp only [insertLe]
      split
      · exact List.Perm.refl _
      · exact (ih.cons b).trans (List.Perm.swap a b t)

theorem sortedBy_perm {α : Type} (le : α → α → Bool) (l : List α) :
    List.Perm (sortedBy le l) l := by
  induction l with
  | nil => exact List.Perm.refl _
  | cons a t ih => exact (insertLe_perm le a (sortedBy le t)).trans (ih.cons a)

theorem pairwise_insertLe {α : Type} {le : α → α → Bool}
    (htot : ∀ a b, le a b = true ∨ le b a = true)
    (htrans : ∀ a b c, le a b = true → le b c = true → le a c = true)
    (a : α) {l : List α} (h : l.Pairwise (fun x y => le x y = true)) :
    (insertLe le a l).Pairwise (fun x y => le x y = true) := by
  induction l with
  | nil => simp [insertLe]
  | cons b t ih =>
      rcases h with _ | ⟨hb, ht⟩
      simp only [insertLe]
      split
      · rename_i hab
        refine List.Pairwise.cons ?_ (List.Pairwise.cons hb ht)
        intro x hx
        rcases List.mem_cons.mp hx with rfl | hx
        · exact hab
        · exact htrans a b x hab (hb x hx)
      · rename_i hab
        have hba : le b a = true := (htot a b).resolve_left hab
        refine List.Pairwise.cons ?_ (ih ht)
        intro x hx
        rcases (mem_insertLe le a x t).mp hx with rfl | hx
        · exact hba
        · exact hb x hx

theorem sortedBy_pairwise {α : Type} {le : α → α → Bool}
    (htot : ∀ a b, le a b = true ∨ le b a = true)
    (htrans : ∀ a b c, le a b = true → le b c = true → le a c = true)
    (l : List α) :
    (sortedBy le l).Pairwise (fun x y => le x y = true) := by
  induction l with
  | nil => simp [sortedBy]
  | cons a t ih => exact pairwise_insertLe htot htrans a ih

theorem sortedBy_eq_of_perm {α : Type} {le : α → α → Bool}
    (htot : ∀ a b, le a b = true ∨ le b a = true)
    (htrans : ∀ a b c, le a b = true → le b c = true → le a c = true)
    (hanti : ∀ a b, le a b = true → le b a = true → a = b)
    {l₁ l₂ : List α} (h : List.Perm l₁ l₂) :
    sortedBy le l₁ = sortedBy le l₂ := by
  haveI : IsAntisymm α (fun x y => le x y = true) := ⟨fun a b => hanti a b⟩
  refine List.eq_of_perm_of_sorted ?_ (sortedBy_pairwise htot htrans l₁)
    (sortedBy_pairwise htot htrans l₂)
  exact ((sortedBy_perm le l₁).trans h).trans (sortedBy_perm le l₂).symm

/-! ### Order facts for the comparators used by the source -/

theorem valueLe_total (a b : Value) : Value.le a b = true ∨ Value.le b a = true := by
  cases a <;> cases b <;>
    first
      | exact Or.inl rfl
      | exact Or.inr rfl
      | exact (le_total _ _).imp decide_eq_true decide_eq_true

theorem valueLe_trans (a b c : Value) :
    Value.le a b = true → Value.le b c = true → Value.le a c = true := by
  cases a <;> cases b <;> cases c <;> intro h1 h2 <;>
    first
      | rfl
      | exact (Bool.false_ne_true h1).elim
      | exact (Bool.false_ne_true h2).elim
      | exact decide_eq_true (le_trans (of_decide_eq_true h1) (of_decide_eq_true h2))

theorem valueLe_antisymm (a b : Value) :
    Value.le a b = true → Value.le b a = true → a = b := by
  cases a <;> cases b <;> intro h1 h2 <;>
    first
      | rfl
      | exact (Bool.false_ne_true h1).elim
      | exact (Bool.false_ne_true h2).elim
      | exact congrArg Value.num (le_antisymm (of_decide_eq_true h1) (of_decide_eq_true h2))
      | exact congrArg Value.str (le_antisymm (of_decide_eq_true h1) (of_decide_eq_true h2))

/-! ### Structural lemmas about the comparison loops -/

theorem compareKey_fst (t1 t2 : IndexedDF) (nc : List String) (k : Value)
    (cols : List String) :
    (compareKey t1 t2 nc k cols).1 = cols.countP (mismatchAt t1 t2 k) := by
  induction cols with
  | nil => rfl
  | cons c rest ih =>
      simp only [compareKey, List.countP_cons, mismatchAt]
      split
      · rename_i hv
        simp [ih, hv, mismatchAt]
      · rename_i hv
        simp only [ih, mismatchAt]
        rw [if_pos]
        simp [hv]

theorem compareKey_self (t : IndexedDF) (nc : List String) (k : Value)
    (cols : List String) : compareKey t t nc k cols = (0, []) := by
  induction cols with
  | nil => rfl
  | cons c rest ih => simp [compareKey, ih]

theorem compareKey_mem (t1 t2 : IndexedDF) (nc : List String) (k : Value)
    (cols : List String) (r : MismatchRow)
    (hr : r ∈ (compareKey t1 t2 nc k cols).2) :
    ∃ c ∈ cols, valAt t1 k c ≠ valAt t2 k c ∧
      r = mkMismatch nc k c (valAt t1 k c) (valAt t2 k c) := by
  induction cols with
  | nil => cases hr
  | cons c rest ih =>
      simp only [compareKey] at hr
      split at hr
      · obtain ⟨c', hc', hne, hre⟩ := ih hr
        exact ⟨c', List.mem_cons_of_mem c hc', hne, hre⟩
      · rename_i hv
        rcases List.mem_cons.mp hr with rfl | hr'
        · exact ⟨c, List.mem_cons_self c rest, hv, rfl⟩
        · obtain ⟨c', hc', hne, hre⟩ := ih hr'
          exact ⟨c', List.mem_cons_of_mem c hc', hne, hre⟩

theorem pyDiff_swap (v1 v2 : Value) :
    pyDiff v2 v1 = (pyDiff v1 v2).map Neg.neg := by
  unfold pyDiff
  cases pyFloat v1 <;> cases pyFloat v2 <;> simp

theorem mkMismatch_swap (nc : List String) (k : Value) (c : String) (v1 v2 : Value) :
    mkMismatch nc k c v2 v1 = swapMismatch (mkMismatch nc k c v1 v2) := by
  simp only [mkMismatch, swapMismatch]
  by_cases hc : c ∈ nc
  · simp [hc, pyDiff_swap v1 v2]
  · simp [hc]

theorem compareKey_swap (t1 t2 : IndexedDF) (nc : List String) (k : Value)
    (cols : List String) :
    compareKey t2 t1 nc k cols =
      ((compareKey t1 t2 nc k cols).1,
       (compareKey t1 t2 nc k cols).2.map swapMismatch) := by
  induction cols with
  | nil => rfl
  | cons c rest ih =>
      simp only [compareKey]
      by_cases hv : valAt t1 k c = valAt t2 k c
      · rw [if_pos hv, if_pos hv.symm, ih]
      · rw [if_neg hv, if_neg (fun h => hv h.symm), ih, mkMismatch_swap, List.map_cons]

theorem compareLoop_count (t1 t2 : IndexedDF) (nc : List String) (n1 n2 : String)
    (ac : List String) (ks : List Value) (o : CompareOutput)
    (h : compareLoop t1 t2 nc n1 n2 ac ks = .ok o) (k : Value) :
    o.summary.countP (fun r => r.key == k) + o.missing.countP (fun r => r.key == k)
      = ks.count k := by
  induction ks generalizing o with
  | nil =>
      simp only [compareLoop] at h
      cases h
      simp
  | cons a rest ih =>
      simp only [compareLoop] at h
      split at h
      · rcases hrec : compareLoop t1 t2 nc n1 n2 ac rest with e | o'
        all_goals rw [hrec] at h
        · cases h
        · cases h
          have hr := ih o' hrec
          simp only [List.countP_cons, List.count_cons] at *
          omega
      · split at h
        · rcases hrec : compareLoop t1 t2 nc n1 n2 ac rest with e | o'
          all_goals rw [hrec] at h
          · cases h
          · cases h
            have hr := ih o' hrec
            simp only [List.countP_cons, List.count_cons] at *
            omega
        · split at h
          · cases h
          · rcases hrec : compareLoop t1 t2 nc n1 n2 ac rest with e | o'
            all_goals rw [hrec] at h
            · cases h
            · cases h
              have hr := ih o' hrec
              simp only [List.countP_cons, List.count_cons, mkSummary] at *
              omega

theorem compareLoop_summary_mem (t1 t2 : IndexedDF) (nc : List String) (n1 n2 : String)
    (ac : List String) (ks : List Value) (o : CompareOutput)
    (h : compareLoop t1 t2 nc n1 n2 ac ks = .ok o) (r : SummaryRow)
    (hr : r ∈ o.summary) :
    ∃ k m, m ≤ ac.length ∧ ac.length ≠ 0 ∧ k ∈ ks ∧
      t1.hasKey k = true ∧ t2.hasKey k = true ∧
      m = ac.countP (mismatchAt t1 t2 k) ∧ r = mkSummary k ac.length m := by
  induction ks generalizing o with
  | nil =>
      simp only [compareLoop] at h
      cases h
      cases hr
  | cons a rest ih =>
      simp only [compareLoop] at h
      split at h
      · rcases hrec : compareLoop t1 t2 nc n1 n2 ac rest with e | o'
        all_goals rw [hrec] at h
        · cases h
        · cases h
          obtain ⟨k, m, h1, h2, h3, h4⟩ := ih o' hrec hr
          exact ⟨k, m, h1, h2, List.mem_cons_of_mem a h3, h4⟩
      · rename_i ht1
        split at h
        · rcases hrec : compareLoop t1 t2 nc n1 n2 ac rest with e | o'
          all_goals rw [hrec] at h
          · cases h
          · cases h
            obtain ⟨k, m, h1, h2, h3, h4⟩ := ih o' hrec hr
            exact ⟨k, m, h1, h2, List.mem_cons_of_mem a h3, h4⟩
        · rename_i ht2
          split at h
          · cases h
          · rename_i hlen
            rcases hrec : compareLoop t1 t2 nc n1 n2 ac rest with e | o'
            all_goals rw [hrec] at h
            · cases h
            · cases h
              rcases List.mem_cons.mp hr with rfl | hr'
              · refine ⟨a, (compareKey t1 t2 nc a ac).1, ?_, hlen, List.mem_cons_self a rest,
                  ?_, ?_, ?_, rfl⟩
                · rw [compareKey_fst]; exact List.countP_le_length _
                · simpa using ht1
                · simpa using ht2
                · exact compareKey_fst t1 t2 nc a ac
              · obtain ⟨k, m, h1, h2, h3, h4⟩ := ih o' hrec hr'
                exact ⟨k, m, h1, h2, List.mem_cons_of_mem a h3, h4⟩

theorem compareLoop_detailed_mem (t1 t2 : IndexedDF) (nc : List String) (n1 n2 : String)
    (ac : List String) (ks : List Value) (o : CompareOutput)
    (h : compareLoop t1 t2 nc n1 n2 ac ks = .ok o) (r : MismatchRow)
    (hr : r ∈ o.detailed) :
    ∃ k c, c ∈ ac ∧ valAt t1 k c ≠ valAt t2 k c ∧
      r = mkMismatch nc k c (valAt t1 k c) (valAt t2 k c) := by
  induction ks generalizing o with
  | nil =>
      simp only [compareLoop] at h
      cases h
      cases hr
  | cons a rest ih =>
      simp only [compareLoop] at h
      split at h
      · rcases hrec : compareLoop t1 t2 nc n1 n2 ac rest with e | o'
        all_goals rw [hrec] at h
        · cases h
        · cases h
          exact ih o' hrec hr
      · split at h
        · rcases hrec : compareLoop t1 t2 nc n1 n2 ac rest with e | o'
          all_goals rw [hrec] at h
          · cases h
          · cases h
            exact ih o' hrec hr
        · split at h
          · cases h
          · rcases hrec : compareLoop t1 t2 nc n1 n2 ac rest with e | o'
            all_goals rw [hrec] at h
            · cases h
            · cases h
              rcases List.mem_append.mp hr with hr' | hr'
              · obtain ⟨c, hc, hne, hre⟩ := compareKey_mem t1 t2 nc a ac r hr'
                exact ⟨a, c, hc, hne, hre⟩
              · exact ih o' hrec hr'

theorem compareLoop_missing_mem (t1 t2 : IndexedDF) (nc : List String) (n1 n2 : String)
    (ac : List String) (ks : List Value) (o : CompareOutput)
    (h : compareLoop t1 t2 nc n1 n2 ac ks = .ok o) (r : MissingRow)
    (hr : r ∈ o.missing) :
    r.key ∈ ks ∧
      ((t1.hasKey r.key = false ∧ r.present_in = n2 ++ "_only") ∨
       (t1.hasKey r.key = true ∧ t2.hasKey r.key = false ∧
        r.present_in = n1 ++ "_only")) := by
  induction ks generalizing o with
  | nil =>
      simp only [compareLoop] at h
      cases h
      cases hr
  | cons a rest ih =>
      simp only [compareLoop] at h
      split at h
      · rename_i ht1
        rcases hrec : compareLoop t1 t2 nc n1 n2 ac rest with e | o'
        all_goals rw [hrec] at h
        · cases h
        · cases h
          rcases List.mem_cons.mp hr with rfl | hr'
          · exact ⟨List.mem_cons_self a rest, Or.inl ⟨ht1, rfl⟩⟩
          · obtain ⟨hk, hor⟩ := ih o' hrec hr'
            exact ⟨List.mem_cons_of_mem a hk, hor⟩
      · rename_i ht1
        split at h
        · rename_i ht2
          rcases hrec : compareLoop t1 t2 nc n1 n2 ac rest with e | o'
          all_goals rw [hrec] at h
          · cases h
          · cases h
            rcases List.mem_cons.mp hr with rfl | hr'
            · refine ⟨List.mem_cons_self a rest, Or.inr ⟨?_, ht2, rfl⟩⟩
              simpa using ht1
            · obtain ⟨hk, hor⟩ := ih o' hrec hr'
              exact ⟨List.mem_cons_of_mem a hk, hor⟩
        · split at h
          · cases h
          · rcases hrec : compareLoop t1 t2 nc n1 n2 ac rest with e | o'
            all_goals rw [hrec] at h
            · cases h
            · cases h
              obtain ⟨hk, hor⟩ := ih o' hrec hr
              exact ⟨List.mem_cons_of_mem a hk, hor⟩

theorem compareLoop_self (t : IndexedDF) (nc : List String) (n1 n2 : String)
    (ac : List String) (ks : List Value)
    (hks : ∀ k ∈ ks, t.hasKey k = true) (hlen : ac.length ≠ 0) :
    compareLoop t t nc n1 n2 ac ks =
      .ok ⟨ks.map (fun k => mkSummary k ac.length 0), [], []⟩ := by
  induction ks with
  | nil => rfl
  | cons a rest ih =>
      have ha : t.hasKey a = true := hks a (List.mem_cons_self a rest)
      have hrest : ∀ k ∈ rest, t.hasKey k = true :=
        fun k hk => hks k (List.mem_cons_of_mem a hk)
      simp only [compareLoop, ha, ih hrest, compareKey_self, if_neg hlen]
      simp

theorem compareLoop_swap (t1 t2 : IndexedDF) (nc : List String) (n1 n2 : String)
    (ac : List String) (ks : List Value)
    (hks : ∀ k ∈ ks, t1.hasKey k = true ∨ t2.hasKey k = true) :
    compareLoop t2 t1 nc n2 n1 ac ks =
      (compareLoop t1 t2 nc n1 n2 ac ks).map
        (fun o => ⟨o.summary, o.detailed.map swapMismatch, o.missing⟩) := by
  induction ks with
  | nil => rfl
  | cons a rest ih =>
      have ha := hks a (List.mem_cons_self a rest)
      have hrest : ∀ k ∈ rest, t1.hasKey k = true ∨ t2.hasKey k = true :=
        fun k hk => hks k (List.mem_cons_of_mem a hk)
      cases hh1 : t1.hasKey a with
      | false =>
          have hh2 : t2.hasKey a = true := by
            rcases ha with ha | ha
            · rw [hh1] at ha; cases ha
            · exact ha
          simp only [compareLoop, ih hrest, hh1, hh2]
          cases compareLoop t1 t2 nc n1 n2 ac rest <;> simp [Except.map]
      | true =>
          cases hh2 : t2.hasKey a with
          | false =>
              simp only [compareLoop, ih hrest, hh1, hh2]
              cases compareLoop t1 t2 nc n1 n2 ac rest <;> simp [Except.map]
          | true =>
              simp only [compareLoop, ih hrest, hh1, hh2]
              rw [compareKey_swap t1 t2 nc a ac]
              by_cases hlen : ac.length = 0
              · simp [hlen, Except.map]
              · cases compareLoop t1 t2 nc n1 n2 ac rest <;>
                  simp [hlen, Except.map]

theorem stringLe_total (a b : String) :
    decide (a ≤ b) = true ∨ decide (b ≤ a) = true := by
  simp only [decide_eq_true_eq]
  exact le_total a b

theorem stringLe_trans (a b c : String) :
    decide (a ≤ b) = true → decide (b ≤ c) = true → decide (a ≤ c) = true := by
  simp only [decide_eq_true_eq]
  exact le_trans

theorem stringLe_antisymm (a b : String) :
    decide (a ≤ b) = true → decide (b ≤ a) = true → a = b := by
  simp only [decide_eq_true_eq]
  exact le_antisymm

theorem allKeysOf_nodup (t1 t2 : IndexedDF) : (allKeysOf t1 t2).Nodup :=
  ((sortedBy_perm _ _).nodup_iff).mpr (List.nodup_dedup _)

theorem mem_allKeysOf (t1 t2 : IndexedDF) (k : Value) :
    k ∈ allKeysOf t1 t2 ↔ k ∈ t1.keys ∨ k ∈ t2.keys := by
  rw [allKeysOf, (sortedBy_perm _ _).mem_iff, List.mem_dedup, List.mem_append]

theorem mem_allColumnsOf (t1 t2 : IndexedDF) (c : String) :
    c ∈ allColumnsOf t1 t2 ↔ c ∈ t1.cols ∨ c ∈ t2.cols := by
  rw [allColumnsOf, (sortedBy_perm _ _).mem_iff, List.mem_dedup, List.mem_append]

theorem allKeysOf_swap (t1 t2 : IndexedDF) : allKeysOf t2 t1 = allKeysOf t1 t2 := by
  refine sortedBy_eq_of_perm valueLe_total valueLe_trans valueLe_antisymm ?_
  refine (List.perm_ext_iff_of_nodup (List.nodup_dedup _) (List.nodup_dedup _)).mpr ?_
  intro a
  simp only [List.mem_dedup, List.mem_append]
  exact or_comm

theorem allColumnsOf_swap (t1 t2 : IndexedDF) : allColumnsOf t2 t1 = allColumnsOf t1 t2 := by
  refine sortedBy_eq_of_perm stringLe_total stringLe_trans stringLe_antisymm ?_
  refine (List.perm_ext_iff_of_nodup (List.nodup_dedup _) (List.nodup_dedup _)).mpr ?_
  intro a
  simp only [List.mem_dedup, List.mem_append]
  exact or_comm

theorem compare_files_ok_elim (df1 df2 : DF) (n1 n2 kc : String) (o : CompareOutput)
    (h : compare_files df1 df2 n1 n2 kc = .ok o) :
    df1.cols.contains kc = true ∧ df2.cols.contains kc = true ∧
    ∃ nc, numericColsOf (df1.set_index kc) (df2.set_index kc)
            (allColumnsOf (df1.set_index kc) (df2.set_index kc)) = .ok nc ∧
      compareLoop (df1.set_index kc) (df2.set_index kc) nc n1 n2
        (allColumnsOf (df1.set_index kc) (df2.set_index kc))
        (allKeysOf (df1.set_index kc) (df2.set_index kc)) = .ok o := by
  simp only [compare_files] at h
  split at h
  · cases h
  · rename_i hcond
    rw [not_or] at hcond
    obtain ⟨hc1, hc2⟩ := hcond
    have hb1 : df1.cols.contains kc = true := by
      cases hh : df1.cols.contains kc
      · exact absurd hh hc1
      · rfl
    have hb2 : df2.cols.contains kc = true := by
      cases hh : df2.cols.contains kc
      · exact absurd hh hc2
      · rfl
    split at h
    · cases h
    · rename_i nc hnc
      exact ⟨hb1, hb2, nc, hnc, h⟩

/-! ### Error classification and success-path helpers -/

theorem hasKey_iff (t : IndexedDF) (k : Value) :
    t.hasKey k = true ↔ k ∈ t.keys := by
  constructor
  · intro h
    exact List.elem_iff.mp h
  · intro h
    exact List.elem_eq_true_of_mem h

theorem contains_of_mem {l : List String} {a : String} (h : a ∈ l) :
    l.contains a = true :=
  List.elem_eq_true_of_mem h

theorem numericColsOf_error_shape (t1 t2 : IndexedDF) (cols : List String)
    (e : CompErr) (h : numericColsOf t1 t2 cols = .error e) :
    ∃ c, e = .keyError c := by
  induction cols with
  | nil =>
      simp only [numericColsOf] at h
      cases h
  | cons c rest ih =>
      simp only [numericColsOf] at h
      split at h
      · cases h
        exact ⟨c, rfl⟩
      · split at h
        · rcases hr : numericColsOf t1 t2 rest with e' | l
          all_goals rw [hr] at h
          · cases h
            exact ih hr
          · cases h
        · split at h
          · cases h
            exact ⟨c, rfl⟩
          · split at h
            · rcases hr : numericColsOf t1 t2 rest with e' | l
              all_goals rw [hr] at h
              · cases h
                exact ih hr
              · cases h
            · exact ih h

theorem compareLoop_error_shape (t1 t2 : IndexedDF) (nc : List String)
    (n1 n2 : String) (ac : List String) (ks : List Value) (e : CompErr)
    (h : compareLoop t1 t2 nc n1 n2 ac ks = .error e) : e = .zeroDivisionError := by
  induction ks with
  | nil =>
      simp only [compareLoop] at h
      cases h
  | cons a rest ih =>
      simp only [compareLoop] at h
      split at h
      · rcases hr : compareLoop t1 t2 nc n1 n2 ac rest with e' | o
        all_goals rw [hr] at h
        · cases h
          exact ih hr
        · cases h
      · split at h
        · rcases hr : compareLoop t1 t2 nc n1 n2 ac rest with e' | o
          all_goals rw [hr] at h
          · cases h
            exact ih hr
          · cases h
        · split at h
          · cases h
            rfl
          · rcases hr : compareLoop t1 t2 nc n1 n2 ac rest with e' | o
            all_goals rw [hr] at h
            · cases h
              exact ih hr
            · cases h

theorem compare_files_eq_loop (df1 df2 : DF) (n1 n2 kc : String) (nc : List String)
    (hb1 : df1.cols.contains kc = true) (hb2 : df2.cols.contains kc = true)
    (hnc : numericColsOf (df1.set_index kc) (df2.set_index kc)
      (allColumnsOf (df1.set_index kc) (df2.set_index kc)) = .ok nc) :
    compare_files df1 df2 n1 n2 kc =
      compareLoop (df1.set_index kc) (df2.set_index kc) nc n1 n2
        (allColumnsOf (df1.set_index kc) (df2.set_index kc))
        (allKeysOf (df1.set_index kc) (df2.set_index kc)) := by
  simp only [compare_files]
  rw [if_neg (by simp [List.elem_iff.mp hb1, List.elem_iff.mp hb2]), hnc]

theorem compareLoop_nil_cols_error (t1 t2 : IndexedDF) (nc : List String)
    (n1 n2 : String) (ks : List Value) (k : Value) (hk : k ∈ ks)
    (hk1 : t1.hasKey k = true) (hk2 : t2.hasKey k = true) :
    compareLoop t1 t2 nc n1 n2 [] ks = .error .zeroDivisionError := by
  induction ks with
  | nil => cases hk
  | cons a rest ih =>
      rcases List.mem_cons.mp hk with rfl | hk'
      · simp [compareLoop, hk1, hk2]
      · have hrec := ih hk'
        cases hb1 : t1.hasKey a with
        | false => simp [compareLoop, hb1, hrec]
        | true =>
            cases hb2 : t2.hasKey a with
            | false => simp [compareLoop, hb1, hb2, hrec]
            | true => simp [compareLoop, hb1, hb2]

/-! ### Arithmetic facts about the rounding model -/

theorem roundHalfEven_nonneg {q : ℚ} (h : 0 ≤ q) : 0 ≤ roundHalfEven q := by
  have h0 : (0 : ℤ) ≤ ⌊q⌋ := Int.floor_nonneg.mpr h
  unfold roundHalfEven
  split_ifs <;> omega

theorem roundHalfEven_le {q : ℚ} {n : ℤ} (h : q ≤ (n : ℚ)) : roundHalfEven q ≤ n := by
  have hf : ⌊q⌋ ≤ n := by
    rw [Int.floor_le_iff]
    calc q ≤ (n : ℚ) := h
    _ < (n : ℚ) + 1 := by linarith
  unfold roundHalfEven
  split_ifs with h1 h2 h3
  · exact hf
  · rcases lt_or_eq_of_le hf with hlt | rfl
    · omega
    · exfalso
      have : q - (⌊q⌋ : ℚ) ≤ 0 := by
        linarith [h]
      linarith
  · exact hf
  · rcases lt_or_eq_of_le hf with hlt | rfl
    · omega
    · exfalso
      have hq : q - (⌊q⌋ : ℚ) = 1 / 2 := le_antisymm (not_lt.mp h2) (not_lt.mp h1)
      have : q ≤ (⌊q⌋ : ℚ) := h
      linarith

theorem roundHalfEven_le_of_lt_half {q : ℚ} {n : ℤ} (h : q < (n : ℚ) + 1 / 2) :
    roundHalfEven q ≤ n := by
  have hf : ⌊q⌋ ≤ n := by
    rw [Int.floor_le_iff]
    calc q < (n : ℚ) + 1 / 2 := h
    _ ≤ (n : ℚ) + 1 := by linarith
  unfold roundHalfEven
  split_ifs with h1 h2 h3
  · exact hf
  · rcases lt_or_eq_of_le hf with hlt | rfl
    · omega
    · exfalso
      linarith
  · exact hf
  · rcases lt_or_eq_of_le hf with hlt | rfl
    · omega
    · exfalso
      have hq : q - (⌊q⌋ : ℚ) = 1 / 2 := le_antisymm (not_lt.mp h2) (not_lt.mp h1)
      linarith

theorem roundHalfEven_intCast (n : ℤ) : roundHalfEven (n : ℚ) = n := by
  unfold roundHalfEven
  rw [Int.floor_intCast]
  have h : ((n : ℚ) - (n : ℚ)) < 1 / 2 := by norm_num
  rw [if_pos h]

theorem pythonRound2_intCast100 : pythonRound2 100 = 100 := by
  unfold pythonRound2
  have : ((100 : ℚ) * 100) = ((10000 : ℤ) : ℚ) := by norm_num
  rw [this, roundHalfEven_intCast]
  norm_num

theorem mkSummary_zero_pct (k : Value) (n : ℕ) (hn : n ≠ 0) :
    (mkSummary k n 0).match_percentage = 100 := by
  simp only [mkSummary]
  have hq : (n : ℚ) ≠ 0 := Nat.cast_ne_zero.mpr hn
  have : (((n : ℚ) - ((0 : ℕ) : ℚ)) / (n : ℚ)) * 100 = 100 := by
    field_simp
  rw [this, pythonRound2_intCast100]

theorem numericColsOf_isOk (t1 t2 : IndexedDF) (cols : List String)
    (h : ∀ c ∈ cols, t1.cols.contains c = true ∧ t2.cols.contains c = true) :
    ∃ l, numericColsOf t1 t2 cols = .ok l := by
  induction cols with
  | nil => exact ⟨[], rfl⟩
  | cons c rest ih =>
      obtain ⟨hc1, hc2⟩ := h c (List.mem_cons_self c rest)
      obtain ⟨l, hl⟩ := ih (fun c hc => h c (List.mem_cons_of_mem _ hc))
      simp only [numericColsOf, hc1, hc2, hl]
      by_cases hn1 : t1.colNumeric c
      · exact ⟨c :: l, by simp [hn1]⟩
      · by_cases hn2 : t2.colNumeric c
        · exact ⟨c :: l, by simp [hn1, hn2]⟩
        · exact ⟨l, by simp [hn1, hn2]⟩

theorem numericColsOf_swap_eq (t1 t2 : IndexedDF) (cols : List String) :
    ∀ l1 l2, numericColsOf t1 t2 cols = .ok l1 → numericColsOf t2 t1 cols = .ok l2 →
      l1 = l2 := by
  induction cols with
  | nil =>
      intro l1 l2 h1 h2
      simp only [numericColsOf] at h1 h2
      cases h1
      cases h2
      rfl
  | cons c rest ih =>
      intro l1 l2 h1 h2
      cases hcc1 : t1.cols.contains c with
      | false =>
          simp only [numericColsOf, hcc1] at h1
          cases h1
      | true =>
      cases hcc2 : t2.cols.contains c with
      | false =>
          simp only [numericColsOf, hcc2] at h2
          cases h2
      | true =>
      simp only [numericColsOf, hcc1, hcc2] at h1 h2
      by_cases hn1 : t1.colNumeric c <;> by_cases hn2 : t2.colNumeric c <;>
        simp only [hn1, hn2, if_true, if_false, Bool.true_eq_false, Bool.false_eq_true,
          if_neg, reduceIte] at h1 h2 <;>
        rcases hr1 : numericColsOf t1 t2 rest with e1 | l1' <;>
        rcases hr2 : numericColsOf t2 t1 rest with e2 | l2' <;>
        rw [hr1] at h1 <;> rw [hr2] at h2 <;>
        first
          | (cases h1; done)
          | (cases h2; done)
          | (cases h1; cases h2; try rw [ih _ _ hr1 hr2])

theorem pyDiff_eq_sub (v1 v2 : Value) (a b : ℚ) (h1 : pyFloat v1 = some a)
    (h2 : pyFloat v2 = some b) : pyDiff v1 v2 = some (b - a) := by
  simp [pyDiff, h1, h2]

theorem pyDiff_of_fail (v1 v2 : Value)
    (h : pyFloat v1 = Option.none ∨ pyFloat v2 = Option.none) :
    pyDiff v1 v2 = Option.none := by
  rcases h with h | h <;>
    cases h1 : pyFloat v1 <;> cases h2 : pyFloat v2 <;>
      simp_all [pyDiff]

/-! ### Claim theorems -/

/-- C1 (amended): whenever `compare_files` completes and returns its three
outputs, every key in the union of the two tables' key sets appears in
exactly one output row across the summary and missing sequences — never
both, never neither.  (As stated over all pairs the claim fails, because
`compare_files` can raise instead of returning outputs; see the
counterexample.) -/
theorem c1_key_partition (df1 df2 : DF) (n1 n2 kc : String) (o : CompareOutput)
    (h : compare_files df1 df2 n1 n2 kc = .ok o) (k : Value)
    (hk : k ∈ (df1.set_index kc).keys ∨ k ∈ (df2.set_index kc).keys) :
    o.summary.countP (fun r => r.key == k) +
      o.missing.countP (fun r => r.key == k) = 1 := by
  obtain ⟨-, -, nc, -, hloop⟩ := compare_files_ok_elim df1 df2 n1 n2 kc o h
  rw [compareLoop_count _ _ _ _ _ _ _ _ hloop k]
  exact List.count_eq_one_of_mem (allKeysOf_nodup _ _) ((mem_allKeysOf _ _ k).mpr hk)

/-- C1 witness: on two identical one-key tables the shared key `1` gets
exactly one row (its summary row). -/
theorem c1_key_partition_witness :
    List.countP (fun r => r.key == Value.num 1)
        ([mkSummary (Value.num 1) 1 0] : List SummaryRow) +
      List.countP (fun r => r.key == Value.num 1) ([] : List MissingRow) = 1 :=
  c1_key_partition dfW dfW "A" "B" "k" ⟨[mkSummary (Value.num 1) 1 0], [], []⟩ rfl
    (Value.num 1) (Or.inl (by decide))

/-- C1 counterexample: the two tables share key column `k` and both contain
key `1`, yet `compare_files` raises `KeyError` (column `b` is missing from
table 1 inside the numeric-dtype comprehension), so the key appears in no
output at all — refuting the claim as universally stated. -/
theorem c1_counterexample :
    compare_files dfC1A dfC1B "A" "B" "k" = .error (.keyError "b") ∧
      Value.num 1 ∈ (dfC1A.set_index "k").keys ∧
      Value.num 1 ∈ (dfC1B.set_index "k").keys :=
  ⟨rfl, by decide, by decide⟩

/-- C6: `compare_files` fails with the `ValueError` whose message names the
key column exactly when the key column is absent from at least one of the
two tables' column sets; in the `Except` model the error is the entire
result, so the failure yields no summary, mismatch or missing output. -/
theorem c6_missing_key_column (df1 df2 : DF) (n1 n2 kc : String) :
    compare_files df1 df2 n1 n2 kc = .error (.valueError (keyColumnMsg kc)) ↔
      (kc ∉ df1.cols ∨ kc ∉ df2.cols) := by
  constructor
  · intro h
    by_contra hcon
    rw [not_or, not_not, not_not] at hcon
    obtain ⟨h1, h2⟩ := hcon
    have hb1 := contains_of_mem h1
    have hb2 := contains_of_mem h2
    rcases hnc : numericColsOf (df1.set_index kc) (df2.set_index kc)
        (allColumnsOf (df1.set_index kc) (df2.set_index kc)) with e | nc
    · have he : compare_files df1 df2 n1 n2 kc = .error e := by
        simp only [compare_files]
        rw [if_neg (by simp [h1, h2]), hnc]
      rw [he] at h
      injection h with h'
      obtain ⟨c, rfl⟩ := numericColsOf_error_shape _ _ _ _ hnc
      exact CompErr.noConfusion h'
    · rw [compare_files_eq_loop df1 df2 n1 n2 kc nc hb1 hb2 hnc] at h
      exact CompErr.noConfusion (compareLoop_error_shape _ _ _ _ _ _ _ _ h)
  · intro h
    have hcond : df1.cols.contains kc = false ∨ df2.cols.contains kc = false := by
      rcases h with h | h
      · left
        cases hb : df1.cols.contains kc
        · rfl
        · exact absurd (List.elem_iff.mp hb) h
      · right
        cases hb : df2.cols.contains kc
        · rfl
        · exact absurd (List.elem_iff.mp hb) h
    simp only [compare_files]
    rw [if_pos hcond]

/-- C7: for every file path that ends with neither of the two recognized
extensions, `read_file` fails with the unsupported-format `ValueError`.  The
model dispatches on the extension alone and never touches file contents, so
the error precedes any read. -/
theorem c7_unsupported_format (p : String)
    (h1 : pyEndsWith p ".csv" = false) (h2 : pyEndsWith p ".xlsx" = false) :
    read_file p = .error (.valueError "Only CSV and Excel files are supported") := by
  simp [read_file, h1, h2]

/-- C7 witness at the concrete path `data.txt`. -/
theorem c7_unsupported_format_witness :
    pyEndsWith "data.txt" ".csv" = false ∧ pyEndsWith "data.txt" ".xlsx" = false ∧
      read_file "data.txt" =
        .error (.valueError "Only CSV and Excel files are supported") :=
  ⟨by decide, by decide, c7_unsupported_format "data.txt" (by decide) (by decide)⟩

/-- C9: in the report model, the SUMMARY sheet is the summary sequence
sorted ascending by match percentage (a permutation of it that is pairwise
ordered), while the DETAILED_MISMATCHES and MISSING_KEYS sheets are exactly
the comparator's output sequences in construction order. -/
theorem c9_report_order (s : List SummaryRow) (d : List MismatchRow)
    (m : List MissingRow) :
    (save_report s d m).1.Pairwise
        (fun a b => a.match_percentage ≤ b.match_percentage) ∧
      List.Perm (save_report s d m).1 s ∧
      (save_report s d m).2.1 = d ∧ (save_report s d m).2.2 = m := by
  have hp : ((save_report s d m).1).Pairwise
      (fun a b => decide (a.match_percentage ≤ b.match_percentage) = true) :=
    sortedBy_pairwise
      (fun a b => by
        simp only [decide_eq_true_eq]
        exact le_total a.match_percentage b.match_percentage)
      (fun a b c hab hbc => by
        simp only [decide_eq_true_eq] at hab hbc ⊢
        exact le_trans hab hbc) s
  exact ⟨hp.imp (fun h => of_decide_eq_true h), sortedBy_perm _ _, rfl, rfl⟩

/-- C10: when both tables consist of the key column alone, any key present
in both tables drives the match-percentage computation into a division by
zero, and `compare_files` raises `ZeroDivisionError` instead of emitting a
summary row. -/
theorem c10_zero_division (df1 df2 : DF) (n1 n2 kc : String) (k : Value)
    (h1 : df1.cols = [kc]) (h2 : df2.cols = [kc])
    (hk1 : k ∈ (df1.set_index kc).keys) (hk2 : k ∈ (df2.set_index kc).keys) :
    compare_files df1 df2 n1 n2 kc = .error .zeroDivisionError := by
  have hb1 : df1.cols.contains kc = true := by rw [h1]; simp
  have hb2 : df2.cols.contains kc = true := by rw [h2]; simp
  have hc1 : (df1.set_index kc).cols = [] := by
    simp [DF.set_index, h1, List.indexOf_cons_self]
  have hc2 : (df2.set_index kc).cols = [] := by
    simp [DF.set_index, h2, List.indexOf_cons_self]
  have hac : allColumnsOf (df1.set_index kc) (df2.set_index kc) = [] := by
    rw [allColumnsOf, hc1, hc2]
    rfl
  have hnc : numericColsOf (df1.set_index kc) (df2.set_index kc)
      (allColumnsOf (df1.set_index kc) (df2.set_index kc)) = .ok [] := by
    rw [hac]
    rfl
  rw [compare_files_eq_loop df1 df2 n1 n2 kc [] hb1 hb2 hnc, hac]
  exact compareLoop_nil_cols_error _ _ _ _ _ _ k
    ((mem_allKeysOf _ _ k).mpr (Or.inl hk1))
    ((hasKey_iff _ _).mpr hk1) ((hasKey_iff _ _).mpr hk2)

/-- C10 witness: a concrete key-only table. -/
theorem c10_zero_division_witness :
    compare_files dfKeyOnly dfKeyOnly "A" "B" "k" = .error .zeroDivisionError :=
  c10_zero_division dfKeyOnly dfKeyOnly "A" "B" "k" (Value.num 1) rfl rfl
    (by decide) (by decide)

theorem roundHalfEven_eq_succ_of_half_lt {q : ℚ} {n : ℤ} (h1 : (n : ℚ) + 1 / 2 < q)
    (h2 : q < (n : ℚ) + 1) : roundHalfEven q = n + 1 := by
  have hf : ⌊q⌋ = n := by
    rw [Int.floor_eq_iff]
    constructor
    · linarith
    · linarith
  unfold roundHalfEven
  rw [hf]
  rw [if_neg (by linarith), if_pos (by linarith)]

theorem mkSummary_pct_props (k : Value) (n m : ℕ) (hm : m ≤ n) (hn : n ≠ 0) :
    (mkSummary k n m).match_percentage =
      pythonRound2 ((((n : ℚ) - (m : ℚ)) / (n : ℚ)) * 100) ∧
    0 ≤ (mkSummary k n m).match_percentage ∧
    (mkSummary k n m).match_percentage ≤ 100 ∧
    (m = 0 → (mkSummary k n m).match_percentage = 100) ∧
    (n ≤ 19999 → (mkSummary k n m).match_percentage = 100 → m = 0) := by
  have hnq : (0 : ℚ) < (n : ℚ) := by
    exact_mod_cast Nat.pos_of_ne_zero hn
  have hmq : (m : ℚ) ≤ (n : ℚ) := by exact_mod_cast hm
  have hx0 : 0 ≤ (((n : ℚ) - (m : ℚ)) / (n : ℚ)) * 100 := by
    apply mul_nonneg _ (by norm_num)
    apply div_nonneg _ hnq.le
    linarith
  have hx100 : (((n : ℚ) - (m : ℚ)) / (n : ℚ)) * 100 ≤ 100 := by
    rw [div_mul_eq_mul_div, div_le_iff hnq]
    have h0m : (0 : ℚ) ≤ (m : ℚ) := by positivity
    nlinarith
  refine ⟨rfl, ?_, ?_, ?_, ?_⟩
  · show 0 ≤ pythonRound2 ((((n : ℚ) - (m : ℚ)) / (n : ℚ)) * 100)
    rw [pythonRound2]
    apply div_nonneg _ (by norm_num)
    exact_mod_cast roundHalfEven_nonneg (by positivity)
  · show pythonRound2 ((((n : ℚ) - (m : ℚ)) / (n : ℚ)) * 100) ≤ 100
    rw [pythonRound2, div_le_iff (by norm_num : (0 : ℚ) < 100)]
    have hR : roundHalfEven ((((n : ℚ) - (m : ℚ)) / (n : ℚ)) * 100 * 100) ≤ 10000 := by
      apply roundHalfEven_le
      push_cast
      nlinarith
    calc (roundHalfEven ((((n : ℚ) - (m : ℚ)) / (n : ℚ)) * 100 * 100) : ℚ)
        ≤ ((10000 : ℤ) : ℚ) := by exact_mod_cast hR
    _ = 100 * 100 := by norm_num
  · intro hm0
    subst hm0
    exact mkSummary_zero_pct k n hn
  · intro hn19 hpct
    by_contra hm0
    have hm1 : 1 ≤ m := Nat.one_le_iff_ne_zero.mpr hm0
    have hm1q : (1 : ℚ) ≤ (m : ℚ) := by exact_mod_cast hm1
    have hn19q : (n : ℚ) ≤ 19999 := by exact_mod_cast hn19
    have hlt : (((n : ℚ) - (m : ℚ)) / (n : ℚ)) * 100 * 100 < ((9999 : ℤ) : ℚ) + 1 / 2 := by
      rw [div_mul_eq_mul_div, div_mul_eq_mul_div, div_lt_iff hnq]
      push_cast
      nlinarith
    have hR : roundHalfEven ((((n : ℚ) - (m : ℚ)) / (n : ℚ)) * 100 * 100) ≤ 9999 :=
      roundHalfEven_le_of_lt_half hlt
    have hpct' : (roundHalfEven ((((n : ℚ) - (m : ℚ)) / (n : ℚ)) * 100 * 100) : ℚ) =
        10000 := by
      have := hpct
      simp only [mkSummary, pythonRound2] at this
      rw [div_eq_iff (by norm_num : (100 : ℚ) ≠ 0)] at this
      rw [this]
      norm_num
    have : roundHalfEven ((((n : ℚ) - (m : ℚ)) / (n : ℚ)) * 100 * 100) = 10000 := by
      exact_mod_cast hpct'
    omega

/-! ### Facts about the wide counterexample tables -/

theorem wideName_inj : Function.Injective wideName := by
  intro a b h
  have hd : List.replicate (a + 1) 'c' = List.replicate (b + 1) 'c' :=
    congrArg String.data h
  have hl := congrArg List.length hd
  simp only [List.length_replicate] at hl
  omega

theorem wideDataCols_nodup : wideDataCols.Nodup :=
  List.Nodup.map wideName_inj (List.nodup_range _)

theorem wideDataCols_length : wideDataCols.length = 20001 := by
  simp [wideDataCols]

theorem wideDataCols_cons :
    wideDataCols = wideName 0 :: (List.range 20000).map (fun i => wideName (i + 1)) := by
  rw [wideDataCols, show (20001 : ℕ) = 20000 + 1 from rfl, List.range_succ_eq_map,
    List.map_cons, List.map_map]
  rfl

theorem wide_t1_cols : (wideDF1.set_index "k").cols = wideDataCols := by
  simp [wideDF1, DF.set_index, List.indexOf_cons_self, List.eraseIdx_cons_zero]

theorem wide_t2_cols : (wideDF2.set_index "k").cols = wideDataCols := by
  simp [wideDF2, DF.set_index, List.indexOf_cons_self, List.eraseIdx_cons_zero]

theorem wide_t1_entries :
    (wideDF1.set_index "k").entries =
      [(Value.num 0, List.replicate 20001 (Value.num 0))] := by
  simp only [wideDF1, wideRow1, DF.set_index, List.indexOf_cons_self,
    List.map_cons, List.map_nil, List.eraseIdx_cons_zero, List.getD_cons_zero]

theorem wide_t2_entries :
    (wideDF2.set_index "k").entries =
      [(Value.num 0, Value.num 1 :: List.replicate 20000 (Value.num 0))] := by
  simp only [wideDF2, wideRow2, DF.set_index, List.indexOf_cons_self,
    List.map_cons, List.map_nil, List.eraseIdx_cons_zero, List.getD_cons_zero]

theorem wide_ac_perm :
    List.Perm (allColumnsOf (wideDF1.set_index "k") (wideDF2.set_index "k"))
      wideDataCols := by
  rw [allColumnsOf, wide_t1_cols, wide_t2_cols]
  refine (sortedBy_perm _ _).trans ?_
  refine (List.perm_ext_iff_of_nodup (List.nodup_dedup _) wideDataCols_nodup).mpr ?_
  intro a
  simp [List.mem_dedup, List.mem_append]

theorem wide_val1 (c : String) (hc : c ∈ wideDataCols) :
    valAt (wideDF1.set_index "k") (Value.num 0) c = Value.num 0 := by
  have hj : wideDataCols.indexOf c < 20001 := by
    rw [← wideDataCols_length]
    exact List.indexOf_lt_length.mpr hc
  rw [valAt, if_pos (by rw [wide_t1_cols]; exact contains_of_mem hc)]
  rw [IndexedDF.at, wide_t1_entries]
  simp only [List.find?, beq_self_eq_true]
  rw [wide_t1_cols, List.getD_eq_getElem?_getD, List.getElem?_replicate, if_pos hj]
  rfl

theorem wide_val2 (c : String) (hc : c ∈ wideDataCols) :
    valAt (wideDF2.set_index "k") (Value.num 0) c =
      if wideDataCols.indexOf c = 0 then Value.num 1 else Value.num 0 := by
  have hj : wideDataCols.indexOf c < 20001 := by
    rw [← wideDataCols_length]
    exact List.indexOf_lt_length.mpr hc
  rw [valAt, if_pos (by rw [wide_t2_cols]; exact contains_of_mem hc)]
  rw [IndexedDF.at, wide_t2_entries]
  simp only [List.find?, beq_self_eq_true]
  rw [wide_t2_cols]
  rcases hij : wideDataCols.indexOf c with _ | j
  · rw [if_pos rfl]
    rfl
  · rw [if_neg (by omega)]
    have hj' : j < 20000 := by omega
    rw [List.getD_cons_succ, List.getD_eq_getElem?_getD, List.getElem?_replicate,
      if_pos hj']
    rfl

theorem wide_mismatch (c : String) (hc : c ∈ wideDataCols) :
    mismatchAt (wideDF1.set_index "k") (wideDF2.set_index "k") (Value.num 0) c =
      (c == wideName 0) := by
  rw [mismatchAt, wide_val1 c hc, wide_val2 c hc]
  by_cases h0 : c = wideName 0
  · subst h0
    rw [wideDataCols_cons, List.indexOf_cons_self, if_pos rfl]
    simp
  · have hne : wideDataCols.indexOf c ≠ 0 := by
      rw [wideDataCols_cons, List.indexOf_cons_ne _ (Ne.symm h0)]
      exact Nat.succ_ne_zero _
    rw [if_neg hne]
    simp [h0]

theorem wide_count (nc : List String) :
    (compareKey (wideDF1.set_index "k") (wideDF2.set_index "k") nc (Value.num 0)
      (allColumnsOf (wideDF1.set_index "k") (wideDF2.set_index "k"))).1 = 1 := by
  rw [compareKey_fst]
  rw [wide_ac_perm.countP_eq]
  rw [List.countP_congr (fun c hc => by rw [wide_mismatch c hc])]
  rw [← List.count_eq_countP]
  apply List.count_eq_one_of_mem wideDataCols_nodup
  rw [wideDataCols_cons]
  exact List.mem_cons_self _ _

theorem wide_pct :
    pythonRound2 ((((20001 : ℕ) : ℚ) - ((1 : ℕ) : ℚ)) / ((20001 : ℕ) : ℚ) * 100) =
      100 := by
  have h : (((20001 : ℕ) : ℚ) - ((1 : ℕ) : ℚ)) / ((20001 : ℕ) : ℚ) * 100 * 100 =
      200000000 / 20001 := by
    push_cast
    norm_num
  have hR : roundHalfEven ((200000000 : ℚ) / 20001) = (9999 : ℤ) + 1 :=
    roundHalfEven_eq_succ_of_half_lt (by norm_num) (by norm_num)
  rw [pythonRound2, h, hR]
  norm_num

/-- C3 (amended): for every table that contains the key column and has at
least one non-key column (or no rows at all), comparing the table with an
identical copy of itself yields an empty mismatch sequence, an empty missing
sequence, and summary rows whose match percentage is 100 for every key.
(Without that precondition the claim fails: a key-only table with a row
divides by zero; see the counterexample.) -/
theorem c3_identical_tables (df : DF) (n1 n2 kc : String)
    (hk : kc ∈ df.cols)
    (h0 : (df.set_index kc).cols ≠ [] ∨ df.rows = []) :
    compare_files df df n1 n2 kc =
      .ok ⟨(allKeysOf (df.set_index kc) (df.set_index kc)).map
            (fun k => mkSummary k
              (allColumnsOf (df.set_index kc) (df.set_index kc)).length 0), [], []⟩ ∧
    ((allKeysOf (df.set_index kc) (df.set_index kc)).map
        (fun k => mkSummary k
          (allColumnsOf (df.set_index kc) (df.set_index kc)).length 0)).all
      (fun r => r.match_percentage == 100) = true := by
  have hb : df.cols.contains kc = true := contains_of_mem hk
  have hmem : ∀ c ∈ allColumnsOf (df.set_index kc) (df.set_index kc),
      (df.set_index kc).cols.contains c = true ∧
        (df.set_index kc).cols.contains c = true := by
    intro c hc
    rcases (mem_allColumnsOf _ _ c).mp hc with h | h <;>
      exact ⟨contains_of_mem h, contains_of_mem h⟩
  obtain ⟨nc, hnc⟩ := numericColsOf_isOk _ _ _ hmem
  rw [compare_files_eq_loop df df n1 n2 kc nc hb hb hnc]
  rcases h0 with hcols | hrows
  · have hlen : (allColumnsOf (df.set_index kc) (df.set_index kc)).length ≠ 0 := by
      intro hzero
      rw [List.length_eq_zero] at hzero
      obtain ⟨c, hc⟩ : ∃ c, c ∈ (df.set_index kc).cols :=
        List.exists_mem_of_ne_nil _ hcols
      have hmm : c ∈ allColumnsOf (df.set_index kc) (df.set_index kc) :=
        (mem_allColumnsOf _ _ c).mpr (Or.inl hc)
      rw [hzero] at hmm
      cases hmm
    have hks : ∀ k ∈ allKeysOf (df.set_index kc) (df.set_index kc),
        (df.set_index kc).hasKey k = true := by
      intro k hk'
      rcases (mem_allKeysOf _ _ k).mp hk' with h | h <;> exact (hasKey_iff _ _).mpr h
    rw [compareLoop_self _ nc n1 n2 _ _ hks hlen]
    refine ⟨rfl, ?_⟩
    rw [List.all_eq_true]
    intro r hr
    obtain ⟨k, -, rfl⟩ := List.mem_map.mp hr
    simp only [beq_iff_eq]
    exact mkSummary_zero_pct k _ hlen
  · have hkeys : (df.set_index kc).keys = [] := by
      simp [DF.set_index, IndexedDF.keys, hrows]
    have hout : allKeysOf (df.set_index kc) (df.set_index kc) = [] := by
      rw [allKeysOf, hkeys]
      rfl
    rw [hout]
    exact ⟨rfl, rfl⟩

/-- C3 witness: a one-key, one-data-column table compared with itself. -/
theorem c3_identical_tables_witness :
    compare_files dfW dfW "W" "W" "k" =
      .ok ⟨[mkSummary (Value.num 1) 1 0], [], []⟩ ∧
    ([mkSummary (Value.num 1) 1 0] : List SummaryRow).all
      (fun r => r.match_percentage == 100) = true :=
  c3_identical_tables dfW "W" "W" "k" (by decide) (Or.inl (by decide))

/-- C3 counterexample: a table whose only column is the key column, with one
row, compared with an identical copy: `compare_files` raises
`ZeroDivisionError` instead of producing empty mismatch/missing sequences —
refuting the claim for arbitrary tables. -/
theorem c3_counterexample :
    compare_files dfKeyOnly2 dfKeyOnly2 "A" "B" "id" = .error .zeroDivisionError ∧
      dfKeyOnly2.rows ≠ [] :=
  ⟨rfl, by decide⟩

/-- C5: every mismatch row whose column is classified numeric carries the
`difference` field, whose value is `float(val2) - float(val1)` when both
stored values convert, and the `None` marker (not zero) when either
conversion fails; the row is emitted and the run continues either way. -/
theorem c5_numeric_difference (df1 df2 : DF) (n1 n2 kc : String) (o : CompareOutput)
    (nc : List String)
    (hnc : numericColsOf (df1.set_index kc) (df2.set_index kc)
      (allColumnsOf (df1.set_index kc) (df2.set_index kc)) = .ok nc)
    (h : compare_files df1 df2 n1 n2 kc = .ok o)
    (r : MismatchRow) (hr : r ∈ o.detailed) (hcol : r.column_name ∈ nc) :
    r.difference = some (pyDiff r.val1 r.val2) ∧
      (∀ a b, pyFloat r.val1 = some a → pyFloat r.val2 = some b →
        pyDiff r.val1 r.val2 = some (b - a)) ∧
      ((pyFloat r.val1 = Option.none ∨ pyFloat r.val2 = Option.none) →
        pyDiff r.val1 r.val2 = Option.none) := by
  obtain ⟨-, -, nc', hnc', hloop⟩ := compare_files_ok_elim df1 df2 n1 n2 kc o h
  rw [hnc] at hnc'
  injection hnc' with hnceq
  subst hnceq
  obtain ⟨k, c, -, -, hre⟩ := compareLoop_detailed_mem _ _ _ _ _ _ _ _ hloop r hr
  subst hre
  simp only [mkMismatch] at hcol ⊢
  refine ⟨?_, ?_, ?_⟩
  · rw [if_pos (contains_of_mem hcol)]
  · intro a b ha hb
    exact pyDiff_eq_sub _ _ a b ha hb
  · intro hor
    exact pyDiff_of_fail _ _ hor

/-- C5 witness: the numeric column `v` mismatches (7 vs 9) and the emitted
row carries difference `9 − 7`. -/
theorem c5_numeric_difference_witness :
    (mkMismatch ["v"] (Value.num 1) "v" (Value.num 7) (Value.num 9)).difference =
      some (pyDiff (mkMismatch ["v"] (Value.num 1) "v" (Value.num 7) (Value.num 9)).val1
        (mkMismatch ["v"] (Value.num 1) "v" (Value.num 7) (Value.num 9)).val2) :=
  (c5_numeric_difference dfW dfW2 "A" "B" "k"
    ⟨[mkSummary (Value.num 1) 1 1],
     [mkMismatch ["v"] (Value.num 1) "v" (Value.num 7) (Value.num 9)], []⟩
    ["v"] rfl rfl
    (mkMismatch ["v"] (Value.num 1) "v" (Value.num 7) (Value.num 9))
    (List.mem_singleton.mpr rfl) (List.mem_singleton.mpr rfl)).1

/-- C8 (amended): in the spec scenario (table A keys `{1, 2}`, table B keys
`{2, 3}`) there are exactly two missing rows — key 1 labeled `"A_only"` and
key 3 labeled `"B_only"` — and key 2 gets the only summary row; in general a
key present in only one table is labeled with the name of the file that
contains it, suffixed `"_only"`.  (The claim's `key=3 present_in="A_only"`
is refuted by the counterexample.) -/
theorem c8_missing_labels :
    (compare_files dfC8A dfC8B "A" "B" "k").map
        (fun o => (o.missing, o.summary.map (fun r => r.key))) =
      .ok ([⟨Value.num 1, "A_only"⟩, ⟨Value.num 3, "B_only"⟩], [Value.num 2]) ∧
    ∀ (df1 df2 : DF) (n1 n2 kc : String) (o : CompareOutput),
      compare_files df1 df2 n1 n2 kc = .ok o → ∀ r ∈ o.missing,
        (r.key ∉ (df1.set_index kc).keys ∧ r.key ∈ (df2.set_index kc).keys ∧
          r.present_in = n2 ++ "_only") ∨
        (r.key ∈ (df1.set_index kc).keys ∧ r.key ∉ (df2.set_index kc).keys ∧
          r.present_in = n1 ++ "_only") := by
  constructor
  · rfl
  · intro df1 df2 n1 n2 kc o h r hr
    obtain ⟨-, -, nc, -, hloop⟩ := compare_files_ok_elim df1 df2 n1 n2 kc o h
    obtain ⟨hks, hor⟩ := compareLoop_missing_mem _ _ _ _ _ _ _ _ hloop r hr
    have hmem := (mem_allKeysOf _ _ r.key).mp hks
    rcases hor with ⟨hk1, hlab⟩ | ⟨hk1, hk2, hlab⟩
    · left
      have hnot1 : r.key ∉ (df1.set_index kc).keys := by
        intro hc
        rw [(hasKey_iff _ _).mpr hc] at hk1
        cases hk1
      refine ⟨hnot1, ?_, hlab⟩
      rcases hmem with h' | h'
      · exact absurd h' hnot1
      · exact h'
    · right
      have hnot2 : r.key ∉ (df2.set_index kc).keys := by
        intro hc
        rw [(hasKey_iff _ _).mpr hc] at hk2
        cases hk2
      exact ⟨(hasKey_iff _ _).mp hk1, hnot2, hlab⟩

/-- C8 witness: the missing row for key 1 falls under the second labeling
case (present in table A only, labeled with A's name). -/
theorem c8_missing_labels_witness :
    (Value.num 1 ∉ (dfC8A.set_index "k").keys ∧
      Value.num 1 ∈ (dfC8B.set_index "k").keys ∧ "A_only" = "B" ++ "_only") ∨
    (Value.num 1 ∈ (dfC8A.set_index "k").keys ∧
      Value.num 1 ∉ (dfC8B.set_index "k").keys ∧ "A_only" = "A" ++ "_only") :=
  c8_missing_labels.2 dfC8A dfC8B "A" "B" "k"
    ⟨[mkSummary (Value.num 2) 1 0], [],
     [⟨Value.num 1, "A_only"⟩, ⟨Value.num 3, "B_only"⟩]⟩ rfl
    ⟨Value.num 1, "A_only"⟩ (by decide)

/-- C8 counterexample: in the spec scenario the key 3 missing row is labeled
`"B_only"` — not `"A_only"` as the claim asserts. -/
theorem c8_counterexample :
    (compare_files dfC8A dfC8B "A" "B" "k").map
        (fun o => o.missing.filter (fun r => r.key == Value.num 3)) =
      .ok [⟨Value.num 3, "B_only"⟩] ∧
      (⟨Value.num 3, "B_only"⟩ : MissingRow) ≠ ⟨Value.num 3, "A_only"⟩ :=
  ⟨rfl, by decide⟩

/-- C4 (amended): whenever both the original and the swapped runs of
`compare_files` complete, the swapped run has identical summary rows
(statuses included) and identical missing rows, and its mismatch rows are
the original ones with the stored values exchanged and every computed
numeric difference negated.  (As stated over all pairs the claim fails:
swapping can turn a successful run into a raised `KeyError`; see the
counterexample.) -/
theorem c4_swap_negates (df1 df2 : DF) (n1 n2 kc : String) (o1 o2 : CompareOutput)
    (h1 : compare_files df1 df2 n1 n2 kc = .ok o1)
    (h2 : compare_files df2 df1 n2 n1 kc = .ok o2) :
    o2.summary = o1.summary ∧ o2.missing = o1.missing ∧
      o2.detailed = o1.detailed.map swapMismatch := by
  obtain ⟨hb1, hb2, nc1, hnc1, hloop1⟩ := compare_files_ok_elim df1 df2 n1 n2 kc o1 h1
  obtain ⟨hb2', hb1', nc2, hnc2, hloop2⟩ := compare_files_ok_elim df2 df1 n2 n1 kc o2 h2
  rw [allColumnsOf_swap] at hnc2
  have hnceq : nc1 = nc2 := numericColsOf_swap_eq _ _ _ nc1 nc2 hnc1 hnc2
  subst hnceq
  rw [allColumnsOf_swap, allKeysOf_swap] at hloop2
  have hks : ∀ k ∈ allKeysOf (df1.set_index kc) (df2.set_index kc),
      (df1.set_index kc).hasKey k = true ∨ (df2.set_index kc).hasKey k = true := by
    intro k hk
    rcases (mem_allKeysOf _ _ k).mp hk with h | h
    · exact Or.inl ((hasKey_iff _ _).mpr h)
    · exact Or.inr ((hasKey_iff _ _).mpr h)
  rw [compareLoop_swap (df1.set_index kc) (df2.set_index kc) nc1 n1 n2
    (allColumnsOf (df1.set_index kc) (df2.set_index kc))
    (allKeysOf (df1.set_index kc) (df2.set_index kc)) hks, hloop1] at hloop2
  simp only [Except.map] at hloop2
  injection hloop2 with hoeq
  rw [← hoeq]
  exact ⟨rfl, rfl, rfl⟩

/-- C4 witness: swapping the 7-vs-9 tables leaves summary and missing
unchanged and negates the difference (the swapped mismatch row is the
`swapMismatch` image of the original). -/
theorem c4_swap_negates_witness :
    ([mkSummary (Value.num 1) 1 1] : List SummaryRow) = [mkSummary (Value.num 1) 1 1] ∧
    ([] : List MissingRow) = [] ∧
    ([mkMismatch ["v"] (Value.num 1) "v" (Value.num 9) (Value.num 7)] : List MismatchRow) =
      [mkMismatch ["v"] (Value.num 1) "v" (Value.num 7) (Value.num 9)].map swapMismatch :=
  c4_swap_negates dfW dfW2 "A" "B" "k"
    ⟨[mkSummary (Value.num 1) 1 1],
     [mkMismatch ["v"] (Value.num 1) "v" (Value.num 7) (Value.num 9)], []⟩
    ⟨[mkSummary (Value.num 1) 1 1],
     [mkMismatch ["v"] (Value.num 1) "v" (Value.num 9) (Value.num 7)], []⟩
    rfl rfl

/-- C4 counterexample: comparing `dfC4A` with `dfC4B` succeeds (one summary
row), but the swapped call raises `KeyError "c"` — so swapping does not
merely negate differences. -/
theorem c4_counterexample :
    (compare_files dfC4A dfC4B "A" "B" "k").map CompareOutput.summary =
      .ok [mkSummary (Value.num 1) 1 1] ∧
    compare_files dfC4B dfC4A "B" "A" "k" = .error (.keyError "c") :=
  ⟨rfl, rfl⟩

/-- C2 (amended): every summary row's match percentage equals
`round((total_columns - mismatched_columns) / total_columns * 100, 2)` and
lies in `[0, 100]`; it equals 100 whenever the mismatch count is 0, and —
provided the table has at most 19999 compared columns — only then.  (The
unrestricted "equals 100 only if mismatch count is 0" fails for very wide
tables, where rounding reaches 100.0 with one mismatch; see the
counterexample.) -/
theorem c2_match_percentage (df1 df2 : DF) (n1 n2 kc : String) (o : CompareOutput)
    (h : compare_files df1 df2 n1 n2 kc = .ok o)
    (r : SummaryRow) (hr : r ∈ o.summary) :
    r.match_percentage =
      pythonRound2 ((((r.total_columns : ℚ) - (r.mismatched_columns : ℚ)) /
        (r.total_columns : ℚ)) * 100) ∧
    0 ≤ r.match_percentage ∧ r.match_percentage ≤ 100 ∧
    (r.mismatched_columns = 0 → r.match_percentage = 100) ∧
    (r.total_columns ≤ 19999 → r.match_percentage = 100 →
      r.mismatched_columns = 0) := by
  obtain ⟨-, -, nc, -, hloop⟩ := compare_files_ok_elim df1 df2 n1 n2 kc o h
  obtain ⟨k, m, hm, hn, -, -, -, -, hre⟩ :=
    compareLoop_summary_mem _ _ _ _ _ _ _ _ hloop r hr
  subst hre
  exact mkSummary_pct_props k _ m hm hn

/-- C2 witness: the 7-vs-9 run has a summary row (for key 1, one mismatched
column of one) whose match percentage is nonnegative. -/
theorem c2_match_percentage_witness :
    0 ≤ (mkSummary (Value.num 1) 1 1).match_percentage :=
  (c2_match_percentage dfW dfW2 "A" "B" "k"
    ⟨[mkSummary (Value.num 1) 1 1],
     [mkMismatch ["v"] (Value.num 1) "v" (Value.num 7) (Value.num 9)], []⟩
    rfl (mkSummary (Value.num 1) 1 1) (List.mem_singleton.mpr rfl)).2.1

/-- C2 counterexample: on two 20001-data-column tables differing in exactly
one (numeric) cell, the single summary row has `mismatched_columns = 1` yet
`match_percentage = 100` — `round(100·20000/20001, 2) = 100.0` — refuting
"match percentage equals 100 only if the mismatch count is 0". -/
theorem c2_counterexample :
    (compare_files wideDF1 wideDF2 "A" "B" "k").map CompareOutput.summary =
      .ok [⟨Value.num 0, 20001, 20000, 1, 100, "❌ MISMATCH"⟩] := by
  have hb1 : wideDF1.cols.contains "k" = true :=
    contains_of_mem (List.mem_cons_self "k" wideDataCols)
  have hb2 : wideDF2.cols.contains "k" = true :=
    contains_of_mem (List.mem_cons_self "k" wideDataCols)
  have hmem : ∀ c ∈ allColumnsOf (wideDF1.set_index "k") (wideDF2.set_index "k"),
      (wideDF1.set_index "k").cols.contains c = true ∧
        (wideDF2.set_index "k").cols.contains c = true := by
    intro c hc
    have hcw : c ∈ wideDataCols := wide_ac_perm.mem_iff.mp hc
    constructor
    · rw [wide_t1_cols]
      exact contains_of_mem hcw
    · rw [wide_t2_cols]
      exact contains_of_mem hcw
  obtain ⟨nc, hnc⟩ := numericColsOf_isOk _ _ _ hmem
  rw [compare_files_eq_loop wideDF1 wideDF2 "A" "B" "k" nc hb1 hb2 hnc]
  have ht1keys : (wideDF1.set_index "k").keys = [Value.num 0] := by
    rw [IndexedDF.keys, wide_t1_entries]
    rfl
  have ht2keys : (wideDF2.set_index "k").keys = [Value.num 0] := by
    rw [IndexedDF.keys, wide_t2_entries]
    rfl
  have hkeys : allKeysOf (wideDF1.set_index "k") (wideDF2.set_index "k") =
      [Value.num 0] := by
    rw [allKeysOf, ht1keys, ht2keys]
    rfl
  have hk1 : (wideDF1.set_index "k").hasKey (Value.num 0) = true := by
    rw [IndexedDF.hasKey, ht1keys]
    rfl
  have hk2 : (wideDF2.set_index "k").hasKey (Value.num 0) = true := by
    rw [IndexedDF.hasKey, ht2keys]
    rfl
  have hlen : (allColumnsOf (wideDF1.set_index "k") (wideDF2.set_index "k")).length =
      20001 := wide_ac_perm.length_eq.trans wideDataCols_length
  rw [hkeys]
  simp only [compareLoop, hk1, hk2]
  rw [if_neg (by simp), if_neg (by simp), if_neg (by rw [hlen]; omega)]
  simp only [Except.map]
  rw [wide_count nc, hlen]
  have hrow : mkSummary (Value.num 0) 20001 1 =
      ⟨Value.num 0, 20001, 20000, 1, 100, "❌ MISMATCH"⟩ := by
    simp only [mkSummary]
    rw [SummaryRow.mk.injEq]
    exact ⟨rfl, rfl, by norm_num, rfl, wide_pct, by norm_num⟩
  rw [hrow]

end FileComparison
